import Mathlib

/-!
Verification of the request-admission and response-caching core of the
chat11 repository (services/cacheService.ts, the RequestQueue service,
services/geminiService.ts, types/api.ts).

The TypeScript is shallowly embedded: JS numbers that only ever hold
non-negative integers become `Nat`, counters that the source could in
principle drive negative become `Int`, exact fractional statistics
(`hitRate`, `averageItemSize`) become `ℚ`, JS `Map` becomes an
insertion-ordered association list, and `Array.prototype.sort` (stable)
becomes a stable insertion sort.  Opaque payloads are represented by `Nat`.
-/

namespace Chat11

/-! ## String helpers (embedding of `String.prototype.includes` and
`String.prototype.toLowerCase`, restricted to the ASCII range that the
matched literals live in) -/

/-- Does the pattern occur at the very start of the text? -/
def leadMatch : List Char → List Char → Bool
  | [], _ => true
  | _ :: _, [] => false
  | p :: ps, t :: ts => p == t && leadMatch ps ts

/-- Does the pattern occur anywhere in the text? -/
def occursIn (pat : List Char) : List Char → Bool
  | [] => leadMatch pat []
  | c :: cs => leadMatch pat (c :: cs) || occursIn pat cs

/-- Embedding of JavaScript `s.includes(pat)`. -/
def includes (s pat : String) : Bool :=
  occursIn pat.toList s.toList

/-- ASCII lower-casing of one character, as `toLowerCase` acts on the
ASCII literals inspected by the error classifiers. -/
def lowerChar (c : Char) : Char :=
  if 65 ≤ c.toNat ∧ c.toNat ≤ 90 then Char.ofNat (c.toNat + 32) else c

/-- Embedding of JavaScript `s.toLowerCase()` (ASCII range). -/
def lowerStr (s : String) : String :=
  String.mk (s.toList.map lowerChar)

/-! ## types/api.ts -/

/-- `RequestStatus` enum from types/api.ts. -/
inductive RequestStatus
  | pending
  | processing
  | completed
  | failed
  | retrying
  | cancelled
  deriving DecidableEq, Repr

/-- `RetryPolicy` from types/api.ts. -/
structure RetryPolicy where
  maxRetries : Nat
  retryDelay : Nat
  useExponentialBackoff : Bool
  maxRetryDelay : Nat
  deriving DecidableEq, Repr

/-- `DEFAULT_RETRY_POLICY` from types/api.ts. -/
def DEFAULT_RETRY_POLICY : RetryPolicy :=
  { maxRetries := 3
    retryDelay := 1000
    useExponentialBackoff := true
    maxRetryDelay := 30000 }

/-- `ApiErrorType` enum from types/api.ts. -/
inductive ApiErrorType
  | rate_limit_exceeded
  | network_error
  | timeout
  | invalid_request
  | server_error
  | unknown
  deriving DecidableEq, Repr

/-- `ApiError` from types/api.ts: a raw error message together with the
classification fields the services attach to it. -/
structure ApiError where
  message : String
  type : ApiErrorType
  retryable : Bool
  retryAfter : Option Nat
  deriving DecidableEq, Repr

/-- `QueueItem` from types/api.ts.  `request` and `result` are opaque
payloads, embedded as `Nat` / `Option Nat` (`none` = JS `undefined`). -/
structure QueueItem where
  id : Nat
  request : Nat
  status : RequestStatus
  createdAt : Nat
  startedAt : Option Nat
  completedAt : Option Nat
  retryCount : Nat
  retryPolicy : RetryPolicy
  priority : Int
  error : Option ApiError
  result : Option Nat
  deriving DecidableEq, Repr

/-- `CacheItem` from types/api.ts. -/
structure CacheItem where
  key : String
  data : Nat
  createdAt : Nat
  expiresAt : Nat
  lastAccessedAt : Nat
  accessCount : Nat
  size : Nat
  tags : List String
  deriving DecidableEq, Repr

/-- `CacheStats` from types/api.ts.  `totalItems` and `totalSize` are
embedded as `Int` (the source decrements them blindly), `hitRate` and
`averageItemSize` as exact rationals. -/
structure CacheStats where
  totalItems : Int
  hitCount : Nat
  missCount : Nat
  hitRate : ℚ
  totalSize : Int
  averageItemSize : ℚ
  expiredItems : Nat
  mostAccessedItem : Option String
  deriving DecidableEq, Repr

/-- `CacheConfig` from types/api.ts. -/
structure CacheConfig where
  enabled : Bool
  defaultTTL : Nat
  maxSize : Nat
  maxItems : Nat
  cleanupInterval : Nat
  useCompression : Bool
  deriving DecidableEq, Repr

/-- `DEFAULT_CACHE_CONFIG` from types/api.ts. -/
def DEFAULT_CACHE_CONFIG : CacheConfig :=
  { enabled := true
    defaultTTL := 24 * 60 * 60 * 1000
    maxSize := 10 * 1024 * 1024
    maxItems := 1000
    cleanupInterval := 60 * 60 * 1000
    useCompression := false }

/-! ## services/cacheService.ts — the JS `Map` is an insertion-ordered
association list; `Map.set` on an existing key keeps its position. -/

/-- `Map.get`. -/
def mapGet (l : List (String × CacheItem)) (k : String) : Option CacheItem :=
  (l.find? fun p => decide (p.1 = k)).map Prod.snd

/-- `Map.set`: replace in place if present, else append. -/
def mapSet (l : List (String × CacheItem)) (k : String) (v : CacheItem) :
    List (String × CacheItem) :=
  if (l.find? fun p => decide (p.1 = k)).isSome then
    l.map fun p => if p.1 = k then (k, v) else p
  else l ++ [(k, v)]

/-- `Map.delete`. -/
def mapDelete (l : List (String × CacheItem)) (k : String) :
    List (String × CacheItem) :=
  l.filter fun p => decide (p.1 ≠ k)

/-- Sum of the `size` fields of the stored entries. -/
def sumSizes (l : List (String × CacheItem)) : Int :=
  (l.map fun p => (p.2.size : Int)).sum

/-- The environment of the cache: `calcSize` embeds
`calculateSize` (`new Blob([JSON.stringify(data)]).size`), and
`storageOver` embeds the `saveToStorage` test
`JSON.stringify(entries).length > MAX_STORAGE_SIZE` (5 MB); both depend
only on the data, which the embedding keeps opaque. -/
structure CacheEnv where
  calcSize : Nat → Nat
  storageOver : List (String × CacheItem) → Bool

/-- The mutable state of `CacheService`. -/
structure CacheService where
  memoryCache : List (String × CacheItem)
  stats : CacheStats
  config : CacheConfig
  deriving DecidableEq, Repr

/-- The stats field initializer of `CacheService`. -/
def initialStats : CacheStats :=
  { totalItems := 0
    hitCount := 0
    missCount := 0
    hitRate := 0
    totalSize := 0
    averageItemSize := 0
    expiredItems := 0
    mostAccessedItem := none }

/-- A `CacheService` as constructed with `DEFAULT_CACHE_CONFIG` and an
empty `localStorage`. -/
def initialCache : CacheService :=
  { memoryCache := []
    stats := initialStats
    config := DEFAULT_CACHE_CONFIG }

/-- `isExpired`: `Date.now() > item.expiresAt`. -/
def CacheService.isExpired (item : CacheItem) (now : Nat) : Bool :=
  decide (now > item.expiresAt)

/-- `wouldExceedStorageLimit`. -/
def CacheService.wouldExceedStorageLimit (s : CacheService)
    (additionalSize : Nat) : Bool :=
  decide (s.stats.totalSize + (additionalSize : Int) > (s.config.maxSize : Int))

/-- `updateHitRate`. -/
def updateHitRate (st : CacheStats) : CacheStats :=
  let total := st.hitCount + st.missCount
  { st with hitRate := if total > 0 then (st.hitCount : ℚ) / (total : ℚ) else 0 }

/-- `updateMostAccessedItem`. -/
def updateMostAccessedItem (s : CacheService) (key : String)
    (accessCount : Nat) : CacheService :=
  match s.stats.mostAccessedItem with
  | none => { s with stats := { s.stats with mostAccessedItem := some key } }
  | some cur =>
    match mapGet s.memoryCache cur with
    | none => { s with stats := { s.stats with mostAccessedItem := some key } }
    | some curItem =>
      if accessCount > curItem.accessCount then
        { s with stats := { s.stats with mostAccessedItem := some key } }
      else s

/-- `Math.ceil(n * 0.2)` for a JS integer count `n` (for every count
below `2^50` the double computation agrees with `⌈n / 5⌉`). -/
def ceilFifth (n : Nat) : Nat :=
  (n + 4) / 5

/-- The order of the `cleanupOldItems` comparator
`a.lastAccessed - b.lastAccessed`. -/
def entryLe (a b : String × CacheItem) : Prop :=
  a.2.lastAccessedAt ≤ b.2.lastAccessedAt

instance : DecidableRel entryLe := fun a b => by unfold entryLe; infer_instance

instance : IsTotal (String × CacheItem) entryLe :=
  ⟨by intro a b; unfold entryLe; omega⟩

instance : IsTrans (String × CacheItem) entryLe :=
  ⟨by intro a b c; unfold entryLe; omega⟩

/-- The `Array.prototype.sort` of `cleanupOldItems`.  `sort` is stable,
and every stable sort produces the same list, so it is embedded as a
stable insertion sort. -/
def sortEntriesByLastAccessed (l : List (String × CacheItem)) :
    List (String × CacheItem) :=
  l.insertionSort entryLe

/-- The memory-and-stats effect of one `remove` without its trailing
`saveToStorage` call (the snapshot write is re-attached below). -/
def removeCore (s : CacheService) (key : String) : Bool × CacheService :=
  match mapGet s.memoryCache key with
  | none => (false, s)
  | some item =>
    let mc := mapDelete s.memoryCache key
    let st := s.stats
    let ti := st.totalItems - 1
    let ts := st.totalSize - (item.size : Int)
    let avg : ℚ := if ti > 0 then (ts : ℚ) / (ti : ℚ) else 0
    let st1 := { st with totalItems := ti, totalSize := ts, averageItemSize := avg }
    (true, { s with memoryCache := mc, stats := st1 })

/-!
`remove` calls `saveToStorage`, `saveToStorage` calls `cleanupOldItems`
when the serialized snapshot exceeds the 5 MB storage cap, and
`cleanupOldItems` calls `remove` on each victim: a genuine mutual
recursion in the source, terminating because every successful removal
shrinks the map.  It is embedded with an explicit fuel that every call
consumes; the public wrappers pass far more fuel than the cascade can
use.
-/

/-- The call being executed inside the persistence cascade: a `remove`
(which ends in `saveToStorage`), a `saveToStorage` (which may run
`cleanupOldItems`), a `cleanupOldItems` (which removes each victim in
turn), or the tail of its victim loop. -/
inductive PersistCall
  | rm (key : String)
  | save
  | sweep
  | sweepList (ks : List String)

/-- The victim keys of one `cleanupOldItems` pass: sort by
`lastAccessedAt` ascending, keep the oldest `Math.ceil(n * 0.2)`. -/
def sweepVictims (l : List (String × CacheItem)) : List String :=
  ((sortEntriesByLastAccessed l).take (ceilFifth l.length)).map Prod.fst

/-- The persistence cascade, executed with explicit fuel (every call
consumes one unit; the public wrappers pass far more fuel than the
cascade — which strictly shrinks the map — can use). -/
def persistRun (env : CacheEnv) : Nat → PersistCall → CacheService →
    CacheService
  | 0, _, s => s
  | Nat.succ f, .rm key, s =>
    match mapGet s.memoryCache key with
    | none => s
    | some _ => persistRun env f .save (removeCore s key).2
  | Nat.succ f, .save, s =>
    if env.storageOver s.memoryCache then persistRun env f .sweep s else s
  | Nat.succ f, .sweep, s =>
    persistRun env f (.sweepList (sweepVictims s.memoryCache)) s
  | Nat.succ _, .sweepList [], s => s
  | Nat.succ f, .sweepList (k :: ks), s =>
    persistRun env f (.sweepList ks) (persistRun env f (.rm k) s)

/-- Fuel that upper-bounds every persistence cascade on `s`. -/
def persistFuel (s : CacheService) : Nat :=
  6 * (s.memoryCache.length + 2) * (s.memoryCache.length + 2)

/-- `remove`: `removeCore` (whose `Bool` is whether the key was
present) followed by `saveToStorage`. -/
def CacheService.remove (env : CacheEnv) (s : CacheService) (key : String) :
    Bool × CacheService :=
  ((removeCore s key).1, persistRun env (persistFuel s) (.rm key) s)

/-- `saveToStorage` (memory effect): the `cleanupOldItems` pass it runs
when the serialized snapshot exceeds the 5 MB storage cap. -/
def CacheService.saveToStorage (env : CacheEnv) (s : CacheService) :
    CacheService :=
  persistRun env (persistFuel s) .save s

/-- `cleanupOldItems`. -/
def CacheService.cleanupOldItems (env : CacheEnv) (s : CacheService) :
    CacheService :=
  persistRun env (persistFuel s) .sweep s

/-- `get`: returned value paired with the post-state. -/
def CacheService.get (env : CacheEnv) (s : CacheService) (key : String)
    (now : Nat) : Option Nat × CacheService :=
  match mapGet s.memoryCache key with
  | none =>
    let st1 := updateHitRate { s.stats with missCount := s.stats.missCount + 1 }
    (none, { s with stats := st1 })
  | some item =>
    if CacheService.isExpired item now then
      let s1 := (CacheService.remove env s key).2
      let st1 := { s1.stats with missCount := s1.stats.missCount + 1, expiredItems := s1.stats.expiredItems + 1 }
      (none, { s1 with stats := updateHitRate st1 })
    else
      let item1 := { item with lastAccessedAt := now, accessCount := item.accessCount + 1 }
      let s1 := { s with memoryCache := mapSet s.memoryCache key item1 }
      let s2 := updateMostAccessedItem s1 key item1.accessCount
      let st2 := updateHitRate { s2.stats with hitCount := s2.stats.hitCount + 1 }
      (some item.data, { s2 with stats := st2 })

/-- The insertion part of `set` (everything after the capacity check). -/
def setInsert (env : CacheEnv) (s : CacheService) (key : String) (data : Nat)
    (expiresAt now size : Nat) : Bool × CacheService :=
  let item : CacheItem :=
    { key := key
      data := data
      createdAt := now
      expiresAt := expiresAt
      lastAccessedAt := now
      accessCount := 0
      size := size
      tags := [] }
  let st := s.stats
  let st1 :=
    match mapGet s.memoryCache key with
    | some existing => { st with totalSize := st.totalSize - (existing.size : Int) }
    | none => { st with totalItems := st.totalItems + 1 }
  let mc := mapSet s.memoryCache key item
  let ts := st1.totalSize + (size : Int)
  let st2 := { st1 with totalSize := ts, averageItemSize := (ts : ℚ) / (st1.totalItems : ℚ) }
  let s1 : CacheService := { s with memoryCache := mc, stats := st2 }
  (true, CacheService.saveToStorage env s1)

/-- The TTL `set` applies: `ttl || this.config.defaultTTL`, where a
missing or zero `ttl` is falsy. -/
def effectiveTTL (c : CacheConfig) (ttl : Option Nat) : Nat :=
  let t := match ttl with | some t => t | none => 0
  if t = 0 then c.defaultTTL else t

/-- `set`: `ttl = some 0` behaves like `none` because `ttl ||
this.config.defaultTTL` treats `0` as falsy. -/
def CacheService.set (env : CacheEnv) (s : CacheService) (key : String)
    (data : Nat) (ttl : Option Nat) (now : Nat) : Bool × CacheService :=
  let expiresAt := now + effectiveTTL s.config ttl
  let size := env.calcSize data
  if CacheService.wouldExceedStorageLimit s size then
    let s1 := CacheService.cleanupOldItems env s
    if CacheService.wouldExceedStorageLimit s1 size then (false, s1)
    else setInsert env s1 key data expiresAt now size
  else setInsert env s key data expiresAt now size

/-- `clear`. -/
def CacheService.clear (s : CacheService) : CacheService :=
  { s with memoryCache := [], stats := initialStats }

/-- `has`. -/
def CacheService.has (s : CacheService) (key : String) (now : Nat) : Bool :=
  match mapGet s.memoryCache key with
  | some item => !(CacheService.isExpired item now)
  | none => false

/-- The `forEach` loop of `cleanup`, iterating over a snapshot of the
entries and removing the expired ones. -/
def cleanupLoop (env : CacheEnv) (now : Nat) :
    List (String × CacheItem) → CacheService → Nat × CacheService
  | [], s => (0, s)
  | (k, item) :: rest, s =>
    if CacheService.isExpired item now then
      let s1 := (CacheService.remove env s k).2
      let r := cleanupLoop env now rest s1
      (r.1 + 1, r.2)
    else cleanupLoop env now rest s

/-- `cleanup`: purge all expired entries, return how many. -/
def CacheService.cleanup (env : CacheEnv) (s : CacheService) (now : Nat) :
    Nat × CacheService :=
  let r := cleanupLoop env now s.memoryCache s
  (r.1, { r.2 with stats :=
    { r.2.stats with expiredItems := r.2.stats.expiredItems + r.1 } })

/-! ## The RequestQueue service -/

/-- `createApiError` of `RequestQueue`: classify a raw error by
substring inspection of its message.  The raw error's own `retryAfter`
field (if any) survives except in the rate-limit branch, which
overwrites it with 5000. -/
def RequestQueue.createApiError (message : String) (rawRetryAfter : Option Nat) :
    ApiError :=
  if includes message "429" || includes message "rate limit" then
    { message := message, type := .rate_limit_exceeded, retryable := true,
      retryAfter := some 5000 }
  else if includes message "network" || includes message "fetch" then
    { message := message, type := .network_error, retryable := true,
      retryAfter := rawRetryAfter }
  else if includes message "timeout" then
    { message := message, type := .timeout, retryable := true,
      retryAfter := rawRetryAfter }
  else
    { message := message, type := .unknown, retryable := false,
      retryAfter := rawRetryAfter }

/-- `calculateRetryDelay` of `RequestQueue`: called after
`item.retryCount` has been incremented; ignores the error entirely. -/
def RequestQueue.calculateRetryDelay (item : QueueItem) : Nat :=
  let rp := item.retryPolicy
  if rp.useExponentialBackoff then
    min (rp.retryDelay * 2 ^ (item.retryCount - 1)) rp.maxRetryDelay
  else rp.retryDelay

/-- `handleRequestError`: classify, then either schedule a delayed
re-entry (result `some delay`) or fail terminally (result `none`). -/
def RequestQueue.handleRequestError (item : QueueItem) (now : Nat)
    (message : String) (rawRetryAfter : Option Nat) : QueueItem × Option Nat :=
  let apiError := RequestQueue.createApiError message rawRetryAfter
  let item1 := { item with error := some apiError }
  if item1.retryCount < item1.retryPolicy.maxRetries && apiError.retryable then
    let item2 := { item1 with status := .retrying, retryCount := item1.retryCount + 1 }
    (item2, some (RequestQueue.calculateRetryDelay item2))
  else
    ({ item1 with status := .failed, completedAt := some now }, none)

/-- The `QueueItem` that `addRequest` pushes: `pending`, `retryCount`
0, `result` explicitly `undefined`. -/
def RequestQueue.addRequestItem (id : Nat) (request : Nat) (priority : Int)
    (retryPolicy : RetryPolicy) (now : Nat) : QueueItem :=
  { id := id
    request := request
    status := .pending
    createdAt := now
    startedAt := none
    completedAt := none
    retryCount := 0
    retryPolicy := retryPolicy
    priority := priority
    error := none
    result := none }

/-- The success path of `processRequest`: the source marks the item
`COMPLETED` and stamps `completedAt` without ever invoking the handler
(its own comment notes the handler would have to be called in a real
implementation), so `result` is left untouched. -/
def RequestQueue.processRequest (item : QueueItem) (now : Nat) : QueueItem :=
  { item with status := .completed, startedAt := some now, completedAt := some now }

/-- One round of the `waitForCompletion` poll. -/
inductive WaitOutcome
  | resolved (r : Option Nat)
  | rejected
  | waiting
  deriving DecidableEq, Repr

/-- The status check inside `waitForCompletion`: a `COMPLETED` item
resolves the caller's promise with `item.result`. -/
def RequestQueue.checkCompletion (item : QueueItem) : WaitOutcome :=
  match item.status with
  | .completed => .resolved item.result
  | .failed => .rejected
  | .cancelled => .rejected
  | _ => .waiting

/-- The comparator order of `sortQueueByPriority`:
`a.priority - b.priority`, ties by `a.createdAt - b.createdAt`. -/
def queueLe (a b : QueueItem) : Prop :=
  a.priority < b.priority ∨
    (a.priority = b.priority ∧ a.createdAt ≤ b.createdAt)

instance : DecidableRel queueLe := fun a b => by unfold queueLe; infer_instance

instance : IsTotal QueueItem queueLe :=
  ⟨by intro a b; unfold queueLe; omega⟩

instance : IsTrans QueueItem queueLe :=
  ⟨by intro a b c; unfold queueLe; omega⟩

/-- `sortQueueByPriority`.  `Array.prototype.sort` is stable, and every
stable sort produces the same list, so it is embedded as a stable
insertion sort. -/
def RequestQueue.sortQueueByPriority (q : List QueueItem) : List QueueItem :=
  q.insertionSort queueLe

/-- `getNextPendingItem`: first `PENDING` item of the queue array. -/
def RequestQueue.getNextPendingItem (q : List QueueItem) : Option QueueItem :=
  q.find? fun item => decide (item.status = RequestStatus.pending)

/-- In-place mutation of the queue item with the given id. -/
def updateItem (q : List QueueItem) (id : Nat) (f : QueueItem → QueueItem) :
    List QueueItem :=
  q.map fun it => if it.id = id then f it else it

/-- `cancelRequest`: a no-op returning `false` only when the item is
missing or already `COMPLETED`; every other status is forced to
`CANCELLED` with a fresh `completedAt`. -/
def RequestQueue.cancelRequest (q : List QueueItem) (id : Nat) (now : Nat) :
    Bool × List QueueItem :=
  match q.find? fun it => decide (it.id = id) with
  | none => (false, q)
  | some item =>
    if item.status = RequestStatus.completed then (false, q)
    else
      (true, updateItem q id fun it =>
        { it with status := .cancelled, completedAt := some now })

/-! ## The processing loop as a transition system.

`processRequest` is `async`; the interval between admission (status set
to `PROCESSING`, id added to the `processing` set) and completion is
modelled by separate transitions.  `maxConcurrentRequests` never
changes after construction. -/

/-- The mutable state of a `RequestQueue`. -/
structure QueueState where
  queue : List QueueItem
  processing : List Nat
  maxConcurrentRequests : Nat
  deriving DecidableEq, Repr

/-- A freshly constructed `RequestQueue`. -/
def initialQueueState (maxConcurrent : Nat) : QueueState :=
  { queue := [], processing := [], maxConcurrentRequests := maxConcurrent }

/-- The transitions of the queue: `addRequest`, admission by
`startProcessing`/`processRequest`, the three ends of `processRequest`
(success, retryable failure, terminal failure), the retry timer
re-entering an item as `PENDING`, and `cancelRequest`. -/
inductive QStep : QueueState → QueueState → Prop
  | enqueue (s : QueueState) (item : QueueItem)
      (hfresh : item.id ∉ s.queue.map QueueItem.id)
      (hstatus : item.status = RequestStatus.pending) :
      QStep s { s with queue := RequestQueue.sortQueueByPriority (s.queue ++ [item]) }
  | beginProcessing (s : QueueState) (item : QueueItem) (now : Nat)
      (hslot : s.processing.length < s.maxConcurrentRequests)
      (hnext : RequestQueue.getNextPendingItem s.queue = some item)
      (hnotin : item.id ∉ s.processing) :
      QStep s { s with
        queue := updateItem s.queue item.id fun it =>
          { it with status := .processing, startedAt := some now },
        processing := item.id :: s.processing }
  | finishOk (s : QueueState) (id : Nat) (now : Nat)
      (hin : id ∈ s.processing) :
      QStep s { s with
        queue := updateItem s.queue id fun it =>
          { it with status := .completed, completedAt := some now },
        processing := s.processing.erase id }
  | finishRetry (s : QueueState) (id : Nat) (now : Nat)
      (message : String) (rawRetryAfter : Option Nat)
      (hin : id ∈ s.processing) :
      QStep s { s with
        queue := updateItem s.queue id fun it =>
          (RequestQueue.handleRequestError it now message rawRetryAfter).1,
        processing := s.processing.erase id }
  | retryReenter (s : QueueState) (id : Nat)
      (hnotin : id ∉ s.processing) :
      QStep s { s with
        queue := RequestQueue.sortQueueByPriority
          (updateItem s.queue id fun it => { it with status := .pending }) }
  | cancel (s : QueueState) (id : Nat) (now : Nat) :
      QStep s { s with queue := (RequestQueue.cancelRequest s.queue id now).2 }

/-- States reachable from a freshly constructed queue. -/
def QueueReachable (maxConcurrent : Nat) (s : QueueState) : Prop :=
  Relation.ReflTransGen QStep (initialQueueState maxConcurrent) s

/-- Number of items currently holding `PROCESSING` status. -/
def processingCount (s : QueueState) : Nat :=
  (s.queue.filter fun it => decide (it.status = RequestStatus.processing)).length

/-! ## services/geminiService.ts -/

/-- `API_CONFIG.RATE_LIMIT.RETRY_DELAY_MS` (identical in the
development override). -/
def RETRY_DELAY_MS : Nat := 5000

/-- `calculateRetryDelay` of `GeminiService`: a truthy `retryAfter`
takes precedence over the exponential backoff. -/
def GeminiService.calculateRetryDelay (attempt : Nat) (retryAfter : Option Nat) :
    Nat :=
  match retryAfter with
  | some r => if r ≠ 0 then r else min (RETRY_DELAY_MS * 2 ^ attempt) 30000
  | none => min (RETRY_DELAY_MS * 2 ^ attempt) 30000

/-- `createApiError` of `GeminiService`. -/
def GeminiService.createApiError (message : String) (rawRetryAfter : Option Nat) :
    ApiError :=
  if includes message "429" || includes message "RESOURCE_EXHAUSTED" then
    { message := message, type := .rate_limit_exceeded, retryable := true,
      retryAfter := some 5000 }
  else if includes message "network" || includes message "fetch" then
    { message := message, type := .network_error, retryable := true,
      retryAfter := rawRetryAfter }
  else if includes message "timeout" then
    { message := message, type := .timeout, retryable := true,
      retryAfter := rawRetryAfter }
  else
    { message := message, type := .unknown, retryable := false,
      retryAfter := rawRetryAfter }

/-- `getErrorType` of `OllamaService` (geminiService.ts). -/
def OllamaService.getErrorType (message : String) : ApiErrorType :=
  let m := lowerStr message
  if includes m "rate limit" || includes m "429" then .rate_limit_exceeded
  else if includes m "network" || includes m "fetch" then .network_error
  else if includes m "timeout" then .timeout
  else if includes m "400" || includes m "invalid" then .invalid_request
  else if includes m "500" || includes m "server" then .server_error
  else .unknown

/-- `isRetryableError` of `OllamaService`. -/
def OllamaService.isRetryableError (message : String) : Bool :=
  let m := lowerStr message
  includes m "network" || includes m "timeout" || includes m "500" ||
    includes m "server"

/-! ## Concrete scenarios -/

/-- A freshly enqueued item with the default retry policy. -/
def freshItem : QueueItem :=
  RequestQueue.addRequestItem 1 0 0 DEFAULT_RETRY_POLICY 0

/-- One failing attempt: the item fails while processing with a
retryable network error that carries no suggested `retryAfter`. -/
def retryRound (it : QueueItem) : QueueItem × Option Nat :=
  RequestQueue.handleRequestError it 0 "network glitch" none

/-- The retry timer firing: the item re-enters the queue as `PENDING`. -/
def reenterPending (it : QueueItem) : QueueItem :=
  { it with status := .pending }

/-- An item that has already failed terminally. -/
def failedItem : QueueItem :=
  { freshItem with status := RequestStatus.failed }

/-- The four items of the ordering scenario: priorities `[2,0,1,0]` at
strictly increasing timestamps. -/
def scenarioItemA : QueueItem := RequestQueue.addRequestItem 1 0 2 DEFAULT_RETRY_POLICY 10

/-- Second scenario item (priority 0). -/
def scenarioItemB : QueueItem := RequestQueue.addRequestItem 2 0 0 DEFAULT_RETRY_POLICY 20

/-- Third scenario item (priority 1). -/
def scenarioItemC : QueueItem := RequestQueue.addRequestItem 3 0 1 DEFAULT_RETRY_POLICY 30

/-- Fourth scenario item (priority 0). -/
def scenarioItemD : QueueItem := RequestQueue.addRequestItem 4 0 0 DEFAULT_RETRY_POLICY 40

/-- `addRequest`'s queue mutation: push, then `sortQueueByPriority`. -/
def pushSorted (q : List QueueItem) (it : QueueItem) : List QueueItem :=
  RequestQueue.sortQueueByPriority (q ++ [it])

/-- The queue after enqueueing the four scenario items in order. -/
def scenarioQueue : List QueueItem :=
  pushSorted (pushSorted (pushSorted (pushSorted [] scenarioItemA) scenarioItemB) scenarioItemC) scenarioItemD

/-- Admission order with one slot: repeatedly take
`getNextPendingItem` and drive it to a terminal state. -/
def admissionOrder : List QueueItem → Nat → List Nat
  | _, 0 => []
  | q, Nat.succ fuel =>
    match RequestQueue.getNextPendingItem q with
    | none => []
    | some it =>
      it.id :: admissionOrder
        (updateItem q it.id fun x => { x with status := .completed }) fuel

/-- A realizable `storageOver`: the serialized JSON of the entry list is
at least the sum of the entries' `size` fields (each entry's JSON
embeds `JSON.stringify(data)`, whose byte size is exactly `size`), so
the sum exceeding the 5 MB cap forces `json.length > MAX_STORAGE_SIZE`. -/
def storageOverBySize (l : List (String × CacheItem)) : Bool :=
  decide ((5 * 1024 * 1024 : Int) < sumSizes l)

/-- A cache environment holding a value whose JSON serialization is
6 MB of ASCII (for example a 6 MB answer string). -/
def bigEnv : CacheEnv :=
  { calcSize := fun _ => 6 * 1024 * 1024, storageOver := storageOverBySize }

/-- A cache environment for small values, whose snapshot never reaches
the 5 MB storage cap. -/
def plainCacheEnv : CacheEnv :=
  { calcSize := fun _ => 10, storageOver := fun _ => false }

/-- First entry of the eviction tie scenario. -/
def tieItem1 : CacheItem :=
  { key := "k1", data := 1, createdAt := 0, expiresAt := 1000,
    lastAccessedAt := 5, accessCount := 0, size := 10, tags := [] }

/-- Second entry of the eviction tie scenario: same `lastAccessedAt`. -/
def tieItem2 : CacheItem :=
  { key := "k2", data := 2, createdAt := 0, expiresAt := 1000,
    lastAccessedAt := 5, accessCount := 0, size := 10, tags := [] }

/-- A cache holding the two tied entries. -/
def twoTieCache : CacheService :=
  { memoryCache := [("k1", tieItem1), ("k2", tieItem2)]
    stats := { initialStats with totalItems := 2, totalSize := 20, averageItemSize := 10 }
    config := DEFAULT_CACHE_CONFIG }

/-- The inductive invariant of the processing loop: the `processing`
set has no duplicates and respects the ceiling, every item holding
`PROCESSING` status is registered in it, and queue ids are unique. -/
def QInv (s : QueueState) : Prop :=
  s.processing.Nodup ∧
  s.processing.length ≤ s.maxConcurrentRequests ∧
  (∀ it ∈ s.queue, it.status = RequestStatus.processing →
    it.id ∈ s.processing) ∧
  (s.queue.map QueueItem.id).Nodup

/-- The stored keys are pairwise distinct (a JS `Map` guarantees it). -/
def KeysNodup (s : CacheService) : Prop :=
  (s.memoryCache.map Prod.fst).Nodup

/-- The aggregate statistics agree with the stored entry set. -/
def StatsOk (s : CacheService) : Prop :=
  s.stats.totalItems = (s.memoryCache.length : Int) ∧
  s.stats.totalSize = sumSizes s.memoryCache ∧
  s.stats.averageItemSize =
    (if 0 < s.stats.totalItems then
      (s.stats.totalSize : ℚ) / (s.stats.totalItems : ℚ) else 0)

/-- The cache invariant: distinct keys and consistent statistics. -/
def CacheInv (s : CacheService) : Prop :=
  KeysNodup s ∧ StatsOk s

/-- The state holds a live entry under `k` with payload `v` and expiry
`e`. -/
def holdsEntry (s : CacheService) (k : String) (v : Nat) (e : Nat) : Prop :=
  ∃ it, mapGet s.memoryCache k = some it ∧ it.data = v ∧ it.expiresAt = e

/-! ## Claim theorems -/

/-- C1: the success path of `processRequest` marks the item
`COMPLETED` and stamps `completedAt`, but it never invokes the
handler: the stored `result` stays `undefined` (the field
`addRequest` initialized), and the caller's `waitForCompletion` poll
therefore resolves the awaitable with `undefined` rather than with any
value a handler would have produced. -/
theorem c1_process_request_never_invokes_handler :
    (RequestQueue.processRequest freshItem 5).status = RequestStatus.completed ∧
    (RequestQueue.processRequest freshItem 5).completedAt = some 5 ∧
    (RequestQueue.processRequest freshItem 5).result = none ∧
    RequestQueue.checkCompletion (RequestQueue.processRequest freshItem 5) =
      WaitOutcome.resolved none :=
  ⟨rfl, rfl, rfl, rfl⟩

/-- C3: with the default policy (`maxRetries = 3`, `retryDelay = 1000`,
exponential backoff capped at 30000), consecutive retryable failures
without a suggested `retryAfter` schedule re-entry after exactly 1000,
2000 and 4000 ms, and the 4th failure transitions the item to `FAILED`
with no further retry. -/
theorem c3_retry_backoff_schedule :
    (retryRound freshItem).2 = some 1000 ∧
    (retryRound freshItem).1.status = RequestStatus.retrying ∧
    (retryRound (reenterPending (retryRound freshItem).1)).2 = some 2000 ∧
    (retryRound (reenterPending (retryRound (reenterPending
      (retryRound freshItem).1)).1)).2 = some 4000 ∧
    (retryRound (reenterPending (retryRound (reenterPending (retryRound
      (reenterPending (retryRound freshItem).1)).1)).1)).2 = none ∧
    (retryRound (reenterPending (retryRound (reenterPending (retryRound
      (reenterPending (retryRound freshItem).1)).1)).1)).1.status =
      RequestStatus.failed := by
  decide

/-- C4 counterexample: `cancelRequest` on an item already in the
terminal state `FAILED` does not leave it unchanged and return
`false`; it returns `true` and forces the status to `CANCELLED`. -/
theorem c4_cancel_failed_counterexample :
    (RequestQueue.cancelRequest [failedItem] 1 99).1 = true ∧
    (RequestQueue.cancelRequest [failedItem] 1 99).2.map QueueItem.status =
      [RequestStatus.cancelled] ∧
    (RequestQueue.cancelRequest [failedItem] 1 99).2 ≠ [failedItem] := by
  decide

/-- C7 counterexample: a rate-limit failure is classified with
`retryAfter = 5000`, yet the queue schedules the policy-computed
1000 ms backoff, not the suggested 5000 ms. -/
theorem c7_queue_ignores_retry_after_counterexample :
    (RequestQueue.createApiError "429" none).retryable = true ∧
    (RequestQueue.createApiError "429" none).retryAfter = some 5000 ∧
    (RequestQueue.handleRequestError freshItem 0 "429" none).2 = some 1000 ∧
    (RequestQueue.handleRequestError freshItem 0 "429" none).2 ≠ some 5000 := by
  decide

/-- C9 counterexample: the queue's own classifier has no server-error
branch, so a raw `"500 Internal Server Error"` is classified `UNKNOWN`
with `retryable = false`, and the queue fails the item terminally on
its first failure instead of retrying. -/
theorem c9_queue_unknown_counterexample :
    (RequestQueue.createApiError "500 Internal Server Error" none).type =
      ApiErrorType.unknown ∧
    (RequestQueue.createApiError "500 Internal Server Error" none).retryable =
      false ∧
    (RequestQueue.handleRequestError freshItem 0 "500 Internal Server Error"
      none).1.status = RequestStatus.failed ∧
    (RequestQueue.handleRequestError freshItem 0 "500 Internal Server Error"
      none).2 = none := by
  decide

/-- C2 counterexample: on an empty cache, `set` of a value whose JSON
serialization is 6 MB succeeds (6 MB is under the 10 MB `maxSize`),
but the `saveToStorage` call inside `set` finds the snapshot over its
5 MB cap and its `cleanupOldItems` pass evicts the single — freshly
set — entry, so an immediate `get` (well before the 24-hour TTL)
returns `null`. -/
theorem c2_snapshot_cap_eviction_counterexample :
    (CacheService.set bigEnv initialCache "k" 0 none 0).1 = true ∧
    (CacheService.set bigEnv initialCache "k" 0 none 0).2.memoryCache = [] ∧
    (1 : Nat) < 0 + DEFAULT_CACHE_CONFIG.defaultTTL ∧
    (CacheService.get bigEnv
      (CacheService.set bigEnv initialCache "k" 0 none 0).2 "k" 1).1 = none := by
  decide

/-- C8 counterexample: with two stored entries sharing one
`lastAccessedAt`, the sweep evicts one of them while the other
survives, so the evicted entry was not strictly less recently accessed
than every surviving entry. -/
theorem c8_tie_counterexample :
    (CacheService.cleanupOldItems plainCacheEnv twoTieCache).memoryCache =
      [("k2", tieItem2)] ∧
    ("k1", tieItem1) ∈ twoTieCache.memoryCache ∧
    ceilFifth twoTieCache.memoryCache.length = 1 ∧
    ¬ tieItem1.lastAccessedAt < tieItem2.lastAccessedAt := by
  decide

/-- `queueLe` is reflexive. -/
theorem queueLe_refl (a : QueueItem) : queueLe a a :=
  Or.inr ⟨rfl, le_refl _⟩

/-- In a queue sorted by `queueLe`, the first `PENDING` item found is
`queueLe`-below every `PENDING` item of the queue. -/
theorem find?_pending_min {l : List QueueItem} (hs : List.Pairwise queueLe l)
    {item : QueueItem}
    (h : l.find? (fun it => decide (it.status = RequestStatus.pending)) =
      some item) :
    item.status = RequestStatus.pending ∧
    ∀ x ∈ l, x.status = RequestStatus.pending → queueLe item x := by
  induction l with
  | nil => simp at h
  | cons a l ih =>
    rw [List.pairwise_cons] at hs
    by_cases hp : a.status = RequestStatus.pending
    · rw [List.find?_cons_of_pos _ (by simpa using hp)] at h
      cases h
      refine ⟨hp, ?_⟩
      intro x hx hpx
      rcases List.mem_cons.1 hx with rfl | hx
      · exact queueLe_refl _
      · exact hs.1 x hx
    · rw [List.find?_cons_of_neg _ (by simpa using hp)] at h
      obtain ⟨h1, h2⟩ := ih hs.2 h
      refine ⟨h1, ?_⟩
      intro x hx hpx
      rcases List.mem_cons.1 hx with rfl | hx
      · exact absurd hpx hp
      · exact h2 x hx hpx

/-- C5: after `sortQueueByPriority`, the item `getNextPendingItem`
selects next is a `PENDING` item that is minimal among all `PENDING` items in
the `(priority, createdAt)` lexicographic order (priority ascending,
FIFO within a band); and the concrete `[2,0,1,0]` scenario is served
in the order second, fourth, third, first item. -/
theorem c5_priority_fifo_admission (q : List QueueItem) (item : QueueItem)
    (h : RequestQueue.getNextPendingItem (RequestQueue.sortQueueByPriority q) =
      some item) :
    (item.status = RequestStatus.pending ∧
     ∀ x ∈ q, x.status = RequestStatus.pending →
       item.priority < x.priority ∨
         (item.priority = x.priority ∧ item.createdAt ≤ x.createdAt)) ∧
    admissionOrder scenarioQueue 5 = [2, 4, 3, 1] := by
  constructor
  · have hs : List.Pairwise queueLe (RequestQueue.sortQueueByPriority q) :=
      List.sorted_insertionSort queueLe q
    have hmin := find?_pending_min hs h
    refine ⟨hmin.1, ?_⟩
    intro x hx hpx
    have hxs : x ∈ RequestQueue.sortQueueByPriority q :=
      ((List.perm_insertionSort queueLe q).mem_iff).2 hx
    exact hmin.2 x hxs hpx
  · decide

/-- C5 witness: the scenario hypotheses are satisfiable. -/
theorem c5_priority_fifo_admission_witness :
    admissionOrder scenarioQueue 5 = [2, 4, 3, 1] :=
  (c5_priority_fifo_admission scenarioQueue scenarioItemB (by decide)).2

/-- C4 (amended): `cancelRequest` leaves an item unchanged and returns
`false` only when it is already `COMPLETED` (or absent); on an item in
the terminal states `FAILED` or `CANCELLED` it returns `true` and
mutates the item, forcing status `CANCELLED` and restamping
`completedAt` — so `FAILED` and `CANCELLED` are not immutable under
`cancelRequest`. -/
theorem c4_terminal_immutability_amended (q : List QueueItem) (id now : Nat)
    (item : QueueItem)
    (hfind : q.find? (fun it => decide (it.id = id)) = some item) :
    (item.status = RequestStatus.completed →
      RequestQueue.cancelRequest q id now = (false, q)) ∧
    ((item.status = RequestStatus.failed ∨
      item.status = RequestStatus.cancelled) →
      (RequestQueue.cancelRequest q id now).1 = true ∧
      ∀ it ∈ (RequestQueue.cancelRequest q id now).2, it.id = id →
        it.status = RequestStatus.cancelled ∧ it.completedAt = some now) := by
  constructor
  · intro hc
    simp [RequestQueue.cancelRequest, hfind, hc]
  · intro hfc
    have hne : ¬ item.status = RequestStatus.completed := by
      rcases hfc with h | h <;> simp [h]
    simp only [RequestQueue.cancelRequest, hfind, if_neg hne]
    refine ⟨by simp, ?_⟩
    intro it hit hid
    simp only [updateItem, List.mem_map] at hit
    obtain ⟨orig, _, heq⟩ := hit
    by_cases horig : orig.id = id
    · rw [if_pos horig] at heq
      rw [← heq]
      exact ⟨rfl, rfl⟩
    · rw [if_neg horig] at heq
      rw [← heq] at hid
      exact absurd hid horig

/-- C4 witness: the amended theorem applies to a concrete `FAILED`
item. -/
theorem c4_terminal_immutability_amended_witness :
    (RequestQueue.cancelRequest [failedItem] 1 99).1 = true :=
  ((c4_terminal_immutability_amended [failedItem] 1 99 failedItem
    (by decide)).2 (Or.inl rfl)).1

/-- C7 (amended): a suggested `retryAfter` takes precedence only in
`GeminiService.calculateRetryDelay`; whenever the `RequestQueue`
schedules a retry, the delay is the policy-computed backoff of the
incremented item, independent of the classified error's `retryAfter`. -/
theorem c7_retry_after_amended (attempt r : Nat) (hr : r ≠ 0)
    (item : QueueItem) (msg : String) (ra : Option Nat) (now : Nat)
    (hretry : (RequestQueue.handleRequestError item now msg ra).2 ≠ none) :
    GeminiService.calculateRetryDelay attempt (some r) = r ∧
    (RequestQueue.handleRequestError item now msg ra).2 =
      some (RequestQueue.calculateRetryDelay
        (RequestQueue.handleRequestError item now msg ra).1) := by
  constructor
  · simp [GeminiService.calculateRetryDelay, hr]
  · by_cases h : (item.retryCount < item.retryPolicy.maxRetries &&
      (RequestQueue.createApiError msg ra).retryable) = true
    · simp [RequestQueue.handleRequestError, h]
    · simp [RequestQueue.handleRequestError, h] at hretry

/-- C7 witness: the amended theorem applies to a concrete rate-limit
retry. -/
theorem c7_retry_after_amended_witness :
    GeminiService.calculateRetryDelay 0 (some 5000) = 5000 :=
  (c7_retry_after_amended 0 5000 (by decide) freshItem "429" none 0
    (by decide)).1

/-- C9 (amended): only `OllamaService` classifies a message indicating
a server-side failure (a `500` status or `server` text, with no
earlier-matching keyword) as `SERVER_ERROR` with `retryable = true`;
the `RequestQueue`'s own classifier — the one its error handling uses —
and `GeminiService`'s classify such messages as `UNKNOWN` with
`retryable = false`, so the queue transitions the item to `FAILED` on
the first such failure instead of retrying. -/
theorem c9_server_error_amended (msg : String)
    (hq : (includes msg "429" || includes msg "rate limit" ||
        includes msg "network" || includes msg "fetch" ||
        includes msg "timeout") = false)
    (hgem : includes msg "RESOURCE_EXHAUSTED" = false)
    (ho : (includes (lowerStr msg) "rate limit" ||
        includes (lowerStr msg) "429" || includes (lowerStr msg) "network" ||
        includes (lowerStr msg) "fetch" || includes (lowerStr msg) "timeout" ||
        includes (lowerStr msg) "400" || includes (lowerStr msg) "invalid") =
        false)
    (hsv : (includes (lowerStr msg) "500" ||
        includes (lowerStr msg) "server") = true)
    (item : QueueItem) (now : Nat) (ra : Option Nat) :
    OllamaService.getErrorType msg = ApiErrorType.server_error ∧
    OllamaService.isRetryableError msg = true ∧
    (RequestQueue.createApiError msg ra).type = ApiErrorType.unknown ∧
    (RequestQueue.createApiError msg ra).retryable = false ∧
    (GeminiService.createApiError msg ra).retryable = false ∧
    (RequestQueue.handleRequestError item now msg ra).1.status =
      RequestStatus.failed := by
  simp only [Bool.or_eq_false_iff] at hq ho
  obtain ⟨⟨⟨⟨h429, hrl⟩, hnet⟩, hftc⟩, hto⟩ := hq
  obtain ⟨⟨⟨⟨⟨⟨horl, ho429⟩, honet⟩, hoftc⟩, hoto⟩, ho400⟩, hoinv⟩ := ho
  have hqe : (RequestQueue.createApiError msg ra).retryable = false := by
    simp [RequestQueue.createApiError, h429, hrl, hnet, hftc, hto]
  refine ⟨?_, ?_, ?_, hqe, ?_, ?_⟩
  · simp [OllamaService.getErrorType, horl, ho429, honet, hoftc, hoto,
      ho400, hoinv, hsv]
  · rcases Bool.or_eq_true_iff.1 hsv with h5 | hsrv
    · simp [OllamaService.isRetryableError, honet, hoto, h5]
    · simp [OllamaService.isRetryableError, honet, hoto, hsrv]
  · simp [RequestQueue.createApiError, h429, hrl, hnet, hftc, hto]
  · simp [GeminiService.createApiError, h429, hgem, hnet, hftc, hto]
  · simp [RequestQueue.handleRequestError, hqe]

/-- C9 witness: the amended theorem applies to a concrete `"HTTP 500"`
message. -/
theorem c9_server_error_amended_witness :
    OllamaService.getErrorType "HTTP 500" = ApiErrorType.server_error :=
  (c9_server_error_amended "HTTP 500" (by decide) (by decide) (by decide)
    (by decide) freshItem 0 none).1

/-! ## The concurrency-ceiling invariant (C6) -/

/-- `updateItem` leaves the id column untouched when the mutation
preserves ids. -/
theorem updateItem_map_id (q : List QueueItem) (id : Nat)
    (f : QueueItem → QueueItem) (hf : ∀ it, (f it).id = it.id) :
    (updateItem q id f).map QueueItem.id = q.map QueueItem.id := by
  simp only [updateItem, List.map_map]
  apply List.map_congr_left
  intro a _
  by_cases h : a.id = id <;> simp [h, hf]

/-- Membership in the queue after an `updateItem`. -/
theorem mem_updateItem {q : List QueueItem} {id : Nat}
    {f : QueueItem → QueueItem} {x : QueueItem} (hx : x ∈ updateItem q id f) :
    ∃ orig ∈ q, x = if orig.id = id then f orig else orig := by
  simp only [updateItem, List.mem_map] at hx
  obtain ⟨orig, horig, heq⟩ := hx
  exact ⟨orig, horig, heq.symm⟩

/-- `handleRequestError` leaves the item `RETRYING` or `FAILED`. -/
theorem handleRequestError_status (it : QueueItem) (now : Nat) (msg : String)
    (ra : Option Nat) :
    (RequestQueue.handleRequestError it now msg ra).1.status =
      RequestStatus.retrying ∨
    (RequestQueue.handleRequestError it now msg ra).1.status =
      RequestStatus.failed := by
  by_cases h : (it.retryCount < it.retryPolicy.maxRetries &&
      (RequestQueue.createApiError msg ra).retryable) = true
  · left
    simp [RequestQueue.handleRequestError, h]
  · right
    simp [RequestQueue.handleRequestError, h]

/-- No transition changes the concurrency ceiling. -/
theorem qstep_max_eq {s t : QueueState} (h : QStep s t) :
    t.maxConcurrentRequests = s.maxConcurrentRequests := by
  cases h <;> rfl

/-- Every transition preserves the invariant. -/
theorem qstep_inv {s t : QueueState} (h : QStep s t) (hi : QInv s) : QInv t := by
  obtain ⟨hnd, hlen, hmem, hids⟩ := hi
  cases h with
  | enqueue item hfresh hstatus =>
    refine ⟨hnd, hlen, ?_, ?_⟩
    · intro it hit hp
      have hit2 : it ∈ s.queue ++ [item] :=
        ((List.perm_insertionSort queueLe _).mem_iff).1 hit
      rcases List.mem_append.1 hit2 with h2 | h2
      · exact hmem it h2 hp
      · have : it = item := by simpa using h2
        rw [this, hstatus] at hp
        cases hp
    · have hperm : List.Perm ((RequestQueue.sortQueueByPriority
          (s.queue ++ [item])).map QueueItem.id)
          ((s.queue ++ [item]).map QueueItem.id) :=
        (List.perm_insertionSort _ _).map _
      rw [hperm.nodup_iff, List.map_append]
      refine List.Nodup.append hids (List.nodup_singleton _) ?_
      intro a ha hb
      have : a = item.id := by simpa using hb
      rw [this] at ha
      exact hfresh ha
  | beginProcessing item now hslot hnext hnotin =>
    refine ⟨List.nodup_cons.2 ⟨hnotin, hnd⟩, by simpa using hslot, ?_, ?_⟩
    · intro it hit hp
      obtain ⟨orig, horig, heq⟩ := mem_updateItem hit
      by_cases ho : orig.id = item.id
      · rw [if_pos ho] at heq
        rw [heq]
        simp [ho]
      · rw [if_neg ho] at heq
        rw [heq]
        exact List.mem_cons_of_mem _ (hmem orig horig (heq ▸ hp))
    · dsimp only
      rw [updateItem_map_id]
      · exact hids
      · intro it
        rfl
  | finishOk id now hin =>
    refine ⟨hnd.erase _, le_trans (s.processing.erase_sublist id).length_le hlen,
      ?_, ?_⟩
    · intro it hit hp
      obtain ⟨orig, horig, heq⟩ := mem_updateItem hit
      by_cases ho : orig.id = id
      · rw [if_pos ho] at heq
        rw [heq] at hp
        cases hp
      · rw [if_neg ho] at heq
        rw [heq]
        rw [heq] at hp
        exact (List.mem_erase_of_ne ho).2 (hmem orig horig hp)
    · dsimp only
      rw [updateItem_map_id]
      · exact hids
      · intro it
        rfl
  | finishRetry id now msg ra hin =>
    refine ⟨hnd.erase _, le_trans (s.processing.erase_sublist id).length_le hlen,
      ?_, ?_⟩
    · intro it hit hp
      obtain ⟨orig, horig, heq⟩ := mem_updateItem hit
      by_cases ho : orig.id = id
      · rw [if_pos ho] at heq
        rw [heq] at hp
        rcases handleRequestError_status orig now msg ra with h2 | h2 <;>
          rw [hp] at h2 <;> cases h2
      · rw [if_neg ho] at heq
        rw [heq]
        rw [heq] at hp
        exact (List.mem_erase_of_ne ho).2 (hmem orig horig hp)
    · dsimp only
      rw [updateItem_map_id]
      · exact hids
      · intro it
        by_cases hb : (it.retryCount < it.retryPolicy.maxRetries &&
            (RequestQueue.createApiError msg ra).retryable) = true <;>
          simp [RequestQueue.handleRequestError, hb]
  | retryReenter id hnotin =>
    refine ⟨hnd, hlen, ?_, ?_⟩
    · intro it hit hp
      have hit2 : it ∈ updateItem s.queue id fun it =>
          { it with status := .pending } :=
        ((List.perm_insertionSort queueLe _).mem_iff).1 hit
      obtain ⟨orig, horig, heq⟩ := mem_updateItem hit2
      by_cases ho : orig.id = id
      · rw [if_pos ho] at heq
        rw [heq] at hp
        cases hp
      · rw [if_neg ho] at heq
        rw [heq]
        rw [heq] at hp
        exact hmem orig horig hp
    · have hperm : List.Perm ((RequestQueue.sortQueueByPriority
          (updateItem s.queue id fun it => { it with status := .pending })).map
            QueueItem.id)
          ((updateItem s.queue id fun it => { it with status := .pending }).map
            QueueItem.id) :=
        (List.perm_insertionSort _ _).map _
      dsimp only
      rw [hperm.nodup_iff, updateItem_map_id]
      · exact hids
      · intro it
        rfl
  | cancel id now =>
    unfold RequestQueue.cancelRequest
    cases hf : s.queue.find? fun it => decide (it.id = id) with
    | none => exact ⟨hnd, hlen, hmem, hids⟩
    | some item =>
      by_cases hc : item.status = RequestStatus.completed
      · simp only [hc, if_pos]
        exact ⟨hnd, hlen, hmem, hids⟩
      · simp only [if_neg hc]
        refine ⟨hnd, hlen, ?_, ?_⟩
        · intro it hit hp
          obtain ⟨orig, horig, heq⟩ := mem_updateItem hit
          by_cases ho : orig.id = id
          · rw [if_pos ho] at heq
            rw [heq] at hp
            cases hp
          · rw [if_neg ho] at heq
            rw [heq]
            rw [heq] at hp
            exact hmem orig horig hp
        · dsimp only
          rw [updateItem_map_id]
          · exact hids
          · intro it
            rfl

/-- A list of length at most one has at most one member. -/
theorem eq_of_mem_of_length_le_one {α : Type} {l : List α} (hl : l.length ≤ 1)
    {a b : α} (ha : a ∈ l) (hb : b ∈ l) : a = b := by
  match l with
  | [] => cases ha
  | [x] =>
    have h1 : a = x := by simpa using ha
    have h2 : b = x := by simpa using hb
    rw [h1, h2]
  | x :: y :: l => simp at hl

/-- C6: in every state reachable from a freshly constructed queue, the
number of items holding `PROCESSING` status never exceeds
`maxConcurrentRequests`; in particular with `maxConcurrentRequests = 1`
no two distinct items hold `PROCESSING` simultaneously. -/
theorem c6_concurrency_ceiling (maxConcurrent : Nat) (s : QueueState)
    (h : QueueReachable maxConcurrent s) :
    processingCount s ≤ s.maxConcurrentRequests ∧
    (s.maxConcurrentRequests = 1 → ∀ a ∈ s.queue, ∀ b ∈ s.queue,
      a.status = RequestStatus.processing →
      b.status = RequestStatus.processing → a = b) := by
  have hinv : QInv s := by
    induction h with
    | refl =>
      exact ⟨List.nodup_nil, Nat.zero_le _, fun it hit => absurd hit
        (List.not_mem_nil it), List.nodup_nil⟩
    | tail hsteps hstep ih => exact qstep_inv hstep ih
  obtain ⟨hnd, hlen, hmem, hids⟩ := hinv
  have hcount : processingCount s ≤ s.maxConcurrentRequests := by
    have hsub : ((s.queue.filter fun it =>
        decide (it.status = RequestStatus.processing)).map QueueItem.id) ⊆
        s.processing := by
      intro a ha
      obtain ⟨it, hit, rfl⟩ := List.mem_map.1 ha
      have h1 := List.mem_filter.1 hit
      exact hmem it h1.1 (by simpa using h1.2)
    have hsubl : List.Sublist (s.queue.filter fun it =>
        decide (it.status = RequestStatus.processing)) s.queue :=
      List.filter_sublist s.queue
    have hnod : ((s.queue.filter fun it =>
        decide (it.status = RequestStatus.processing)).map QueueItem.id).Nodup :=
      hids.sublist (hsubl.map QueueItem.id)
    calc processingCount s
        = ((s.queue.filter fun it =>
            decide (it.status = RequestStatus.processing)).map
              QueueItem.id).length := (List.length_map _ _).symm
      _ ≤ s.processing.length := (hnod.subperm hsub).length_le
      _ ≤ s.maxConcurrentRequests := hlen
  refine ⟨hcount, ?_⟩
  intro h1 a ha b hb hpa hpb
  have hle : (s.queue.filter fun it =>
      decide (it.status = RequestStatus.processing)).length ≤ 1 := by
    have := hcount
    rw [h1] at this
    exact this
  exact eq_of_mem_of_length_le_one hle
    (List.mem_filter.2 ⟨ha, by simpa using hpa⟩)
    (List.mem_filter.2 ⟨hb, by simpa using hpb⟩)

/-- C6 witness: the freshly constructed single-slot queue is reachable
and respects the ceiling. -/
theorem c6_concurrency_ceiling_witness :
    processingCount (initialQueueState 1) ≤
      (initialQueueState 1).maxConcurrentRequests :=
  (c6_concurrency_ceiling 1 (initialQueueState 1)
    Relation.ReflTransGen.refl).1

/-! ## Association-list lemmas for the cache store -/

theorem sumSizes_nil : sumSizes [] = 0 := rfl

theorem sumSizes_cons (p : String × CacheItem) (l : List (String × CacheItem)) :
    sumSizes (p :: l) = (p.2.size : Int) + sumSizes l := by
  simp [sumSizes]

theorem mapGet_eq_none_iff {l : List (String × CacheItem)} {k : String} :
    mapGet l k = none ↔ ∀ p ∈ l, p.1 ≠ k := by
  simp [mapGet, List.find?_eq_none]

theorem mapGet_mem {l : List (String × CacheItem)} {k : String} {it : CacheItem}
    (h : mapGet l k = some it) : (k, it) ∈ l := by
  simp only [mapGet, Option.map_eq_some'] at h
  obtain ⟨p, hp, hsnd⟩ := h
  have hk : p.1 = k := by simpa using List.find?_some hp
  have hm := List.mem_of_find?_eq_some hp
  have : p = (k, it) := by
    cases p
    simp_all
  rw [← this]
  exact hm

theorem length_pos_of_mapGet {l : List (String × CacheItem)} {k : String}
    {it : CacheItem} (h : mapGet l k = some it) : 0 < l.length :=
  List.length_pos.2 (List.ne_nil_of_mem (mapGet_mem h))

theorem mapGet_mapDelete_self (l : List (String × CacheItem)) (k : String) :
    mapGet (mapDelete l k) k = none := by
  rw [mapGet_eq_none_iff]
  intro p hp
  have := List.of_mem_filter hp
  simpa using this

/-- If the key is absent, `mapDelete` is the identity. -/
theorem mapDelete_of_none {l : List (String × CacheItem)} {k : String}
    (h : mapGet l k = none) : mapDelete l k = l := by
  rw [mapGet_eq_none_iff] at h
  apply List.filter_eq_self.2
  intro p hp
  simpa using h p hp

theorem find?_isSome_of_mapGet {l : List (String × CacheItem)} {k : String}
    {it : CacheItem} (h : mapGet l k = some it) :
    (l.find? fun p => decide (p.1 = k)).isSome := by
  simp only [mapGet] at h
  cases hf : l.find? fun p => decide (p.1 = k) with
  | none => rw [hf] at h; cases h
  | some p => rfl

theorem mapSet_eq_map {l : List (String × CacheItem)} {k : String}
    (v : CacheItem) (h : (l.find? fun p => decide (p.1 = k)).isSome) :
    mapSet l k v = l.map fun p => if p.1 = k then (k, v) else p := by
  simp [mapSet, h]

theorem mapSet_eq_append {l : List (String × CacheItem)} {k : String}
    (v : CacheItem) (h : mapGet l k = none) :
    mapSet l k v = l ++ [(k, v)] := by
  have hf : l.find? (fun p => decide (p.1 = k)) = none := by
    simp only [mapGet, Option.map_eq_none'] at h
    exact h
  simp [mapSet, hf]

theorem decide_true_of_eq {a b : String} (h : a = b) :
    decide (a = b) = true :=
  decide_eq_true h

theorem decide_false_of_ne {a b : String} (h : ¬ a = b) :
    ¬ decide (a = b) = true := by
  simp [h]

theorem mapGet_cons_of_ne {p : String × CacheItem}
    {l : List (String × CacheItem)} {k : String} (h : ¬ p.1 = k) :
    mapGet (p :: l) k = mapGet l k := by
  unfold mapGet
  rw [List.find?_cons]
  simp [h]

theorem mapGet_cons_of_eq {p : String × CacheItem}
    {l : List (String × CacheItem)} {k : String} (h : p.1 = k) :
    mapGet (p :: l) k = some p.2 := by
  unfold mapGet
  rw [List.find?_cons]
  simp [h]

theorem mapGet_map_update_self (l : List (String × CacheItem)) (k : String)
    (v : CacheItem) :
    mapGet (l.map fun p => if p.1 = k then (k, v) else p) k =
      if (l.find? fun p => decide (p.1 = k)).isSome then some v else none := by
  induction l with
  | nil => simp [mapGet]
  | cons p l ih =>
    by_cases hp : p.1 = k
    · simp only [List.map_cons, if_pos hp]
      rw [mapGet_cons_of_eq (show ((k, v) : String × CacheItem).1 = k from rfl),
        List.find?_cons]
      simp [hp]
    · simp only [List.map_cons, if_neg hp]
      rw [mapGet_cons_of_ne hp, List.find?_cons,
        show decide (p.1 = k) = false by simp [hp]]
      exact ih

theorem mapGet_append_single (l : List (String × CacheItem)) (k : String)
    (v : CacheItem) (h : mapGet l k = none) :
    mapGet (l ++ [(k, v)]) k = some v := by
  induction l with
  | nil => exact mapGet_cons_of_eq rfl
  | cons p l ih =>
    have hp : ¬ p.1 = k := by
      rw [mapGet_eq_none_iff] at h
      exact h p (by simp)
    rw [List.cons_append, mapGet_cons_of_ne hp]
    apply ih
    rw [mapGet_cons_of_ne hp] at h
    exact h

theorem mapGet_mapSet_self (l : List (String × CacheItem)) (k : String)
    (v : CacheItem) : mapGet (mapSet l k v) k = some v := by
  by_cases h : (l.find? fun p => decide (p.1 = k)).isSome
  · rw [mapSet_eq_map v h, mapGet_map_update_self, if_pos h]
  · have hn : l.find? (fun p => decide (p.1 = k)) = none :=
      Option.not_isSome_iff_eq_none.1 h
    have hg : mapGet l k = none := by simp [mapGet, hn]
    rw [mapSet_eq_append v hg]
    exact mapGet_append_single l k v hg

theorem keys_mapSet_present {l : List (String × CacheItem)} {k : String}
    (v : CacheItem) (h : (l.find? fun p => decide (p.1 = k)).isSome) :
    (mapSet l k v).map Prod.fst = l.map Prod.fst := by
  rw [mapSet_eq_map v h, List.map_map]
  apply List.map_congr_left
  intro p _
  by_cases hp : p.1 = k <;> simp [hp]

theorem keys_mapSet_nodup {l : List (String × CacheItem)} {k : String}
    (v : CacheItem) (h : (l.map Prod.fst).Nodup) :
    ((mapSet l k v).map Prod.fst).Nodup := by
  by_cases hf : (l.find? fun p => decide (p.1 = k)).isSome
  · rw [keys_mapSet_present v hf]
    exact h
  · have hn : l.find? (fun p => decide (p.1 = k)) = none :=
      Option.not_isSome_iff_eq_none.1 hf
    have hg : mapGet l k = none := by simp [mapGet, hn]
    rw [mapSet_eq_append v hg, List.map_append, List.nodup_append]
    refine ⟨h, List.nodup_singleton _, ?_⟩
    intro a ha hb
    have hak : a = k := by simpa using hb
    rw [mapGet_eq_none_iff] at hg
    obtain ⟨p, hp, hpa⟩ := List.mem_map.1 ha
    exact hg p hp (by rw [hpa, hak])

theorem keys_mapDelete_nodup {l : List (String × CacheItem)} {k : String}
    (h : (l.map Prod.fst).Nodup) : ((mapDelete l k).map Prod.fst).Nodup :=
  h.sublist ((List.filter_sublist l).map Prod.fst)

theorem mapDelete_rest {p : String × CacheItem}
    {l : List (String × CacheItem)} {k : String} (hp : p.1 = k)
    (hnd : ((p :: l).map Prod.fst).Nodup) : mapDelete l k = l := by
  rw [List.map_cons, List.nodup_cons] at hnd
  apply List.filter_eq_self.2
  intro q hq
  simp only [decide_eq_true_eq]
  intro hq1
  exact hnd.1 (List.mem_map.2 ⟨q, hq, by rw [hq1, ← hp]⟩)

theorem length_mapDelete {l : List (String × CacheItem)} {k : String}
    {it : CacheItem} (hnd : (l.map Prod.fst).Nodup)
    (h : mapGet l k = some it) : (mapDelete l k).length = l.length - 1 := by
  induction l with
  | nil => cases h
  | cons p l ih =>
    by_cases hp : p.1 = k
    · have hrest := mapDelete_rest hp hnd
      simp only [mapDelete, List.filter_cons]
      rw [if_neg (by simp [hp])]
      simp only [mapDelete] at hrest
      rw [hrest]
      simp
    · rw [List.map_cons, List.nodup_cons] at hnd
      rw [mapGet_cons_of_ne hp] at h
      have hlen := length_pos_of_mapGet h
      have h2 := ih hnd.2 h
      simp only [mapDelete, List.filter_cons] at h2 ⊢
      rw [if_pos (decide_eq_true (show p.1 ≠ k from hp))]
      simp only [List.length_cons]
      omega

theorem sumSizes_mapDelete {l : List (String × CacheItem)} {k : String}
    {it : CacheItem} (hnd : (l.map Prod.fst).Nodup)
    (h : mapGet l k = some it) :
    sumSizes (mapDelete l k) = sumSizes l - (it.size : Int) := by
  induction l with
  | nil => cases h
  | cons p l ih =>
    by_cases hp : p.1 = k
    · have hit : p.2 = it := by
        rw [mapGet_cons_of_eq hp] at h
        exact Option.some.inj h
      have hrest := mapDelete_rest hp hnd
      simp only [mapDelete, List.filter_cons]
      rw [if_neg (by simp [hp])]
      simp only [mapDelete] at hrest
      rw [hrest, sumSizes_cons, hit]
      ring
    · rw [List.map_cons, List.nodup_cons] at hnd
      rw [mapGet_cons_of_ne hp] at h
      have h2 := ih hnd.2 h
      simp only [mapDelete, List.filter_cons] at h2 ⊢
      rw [if_pos (decide_eq_true (show p.1 ≠ k from hp))]
      rw [sumSizes_cons, sumSizes_cons, h2]
      ring

theorem length_mapSet_present {l : List (String × CacheItem)} {k : String}
    {it : CacheItem} (v : CacheItem) (h : mapGet l k = some it) :
    (mapSet l k v).length = l.length := by
  rw [mapSet_eq_map v (find?_isSome_of_mapGet h)]
  exact List.length_map _ _

theorem length_mapSet_absent {l : List (String × CacheItem)} {k : String}
    (v : CacheItem) (h : mapGet l k = none) :
    (mapSet l k v).length = l.length + 1 := by
  rw [mapSet_eq_append v h]
  simp

theorem sumSizes_map_update {l : List (String × CacheItem)} {k : String}
    {it : CacheItem} (v : CacheItem) (hnd : (l.map Prod.fst).Nodup)
    (h : mapGet l k = some it) :
    sumSizes (l.map fun p => if p.1 = k then (k, v) else p) =
      sumSizes l - (it.size : Int) + (v.size : Int) := by
  induction l with
  | nil => cases h
  | cons p l ih =>
    by_cases hp : p.1 = k
    · have hit : p.2 = it := by
        rw [mapGet_cons_of_eq hp] at h
        exact Option.some.inj h
      have hrest : (l.map fun p => if p.1 = k then (k, v) else p) = l := by
        rw [List.map_cons, List.nodup_cons] at hnd
        have hid : (l.map fun p => if p.1 = k then (k, v) else p) = l.map id := by
          apply List.map_congr_left
          intro q hq
          simp only [id]
          rw [if_neg]
          intro hq1
          exact hnd.1 (List.mem_map.2 ⟨q, hq, by rw [hq1, ← hp]⟩)
        rw [hid, List.map_id]
      simp only [List.map_cons, if_pos hp]
      rw [hrest, sumSizes_cons, sumSizes_cons, hit]
      simp only
      ring
    · rw [List.map_cons, List.nodup_cons] at hnd
      rw [mapGet_cons_of_ne hp] at h
      simp only [List.map_cons, if_neg hp]
      rw [sumSizes_cons, sumSizes_cons, ih hnd.2 h]
      ring

theorem sumSizes_mapSet_present {l : List (String × CacheItem)} {k : String}
    {it : CacheItem} (v : CacheItem) (hnd : (l.map Prod.fst).Nodup)
    (h : mapGet l k = some it) :
    sumSizes (mapSet l k v) = sumSizes l - (it.size : Int) + (v.size : Int) := by
  rw [mapSet_eq_map v (find?_isSome_of_mapGet h)]
  exact sumSizes_map_update v hnd h

theorem sumSizes_mapSet_absent {l : List (String × CacheItem)} {k : String}
    (v : CacheItem) (h : mapGet l k = none) :
    sumSizes (mapSet l k v) = sumSizes l + (v.size : Int) := by
  rw [mapSet_eq_append v h]
  simp [sumSizes]

/-! ## The persistence cascade -/

theorem persistFuel_pos (s : CacheService) : 0 < persistFuel s := by
  unfold persistFuel
  positivity

theorem removeCore_memoryCache (s : CacheService) (k : String) :
    (removeCore s k).2.memoryCache = mapDelete s.memoryCache k := by
  cases hmg : mapGet s.memoryCache k with
  | none =>
    simp only [removeCore, hmg]
    exact (mapDelete_of_none hmg).symm
  | some it => simp only [removeCore, hmg]

theorem removeCore_inv (s : CacheService) (k : String) (h : CacheInv s) :
    CacheInv (removeCore s k).2 := by
  obtain ⟨hnd, hti, hts, havg⟩ := h
  cases hmg : mapGet s.memoryCache k with
  | none =>
    simp only [removeCore, hmg]
    exact ⟨hnd, hti, hts, havg⟩
  | some it =>
    simp only [removeCore, hmg]
    have hlen := length_pos_of_mapGet hmg
    refine ⟨keys_mapDelete_nodup hnd, ?_, ?_, rfl⟩
    · show s.stats.totalItems - 1 = ((mapDelete s.memoryCache k).length : Int)
      rw [length_mapDelete hnd hmg, hti]
      omega
    · show s.stats.totalSize - (it.size : Int) = sumSizes (mapDelete s.memoryCache k)
      rw [sumSizes_mapDelete hnd hmg, hts]

theorem persistRun_inv (env : CacheEnv) :
    ∀ (f : Nat) (call : PersistCall) (s : CacheService), CacheInv s →
      CacheInv (persistRun env f call s) := by
  intro f
  induction f with
  | zero => intro call s h; exact h
  | succ f ih =>
    intro call s h
    cases call with
    | rm key =>
      cases hmg : mapGet s.memoryCache key with
      | none => simpa [persistRun, hmg] using h
      | some it =>
        simp only [persistRun, hmg]
        exact ih .save _ (removeCore_inv s key h)
    | save =>
      simp only [persistRun]
      split
      · exact ih .sweep s h
      · exact h
    | sweep =>
      simp only [persistRun]
      exact ih _ _ h
    | sweepList ks =>
      cases ks with
      | nil => exact h
      | cons k ks =>
        simp only [persistRun]
        exact ih _ _ (ih _ _ h)

theorem persistRun_save_id (env : CacheEnv)
    (hstore : ∀ l, env.storageOver l = false) (f : Nat) (s : CacheService) :
    persistRun env f .save s = s := by
  cases f with
  | zero => rfl
  | succ f => simp [persistRun, hstore]

theorem saveToStorage_id (env : CacheEnv)
    (hstore : ∀ l, env.storageOver l = false) (s : CacheService) :
    CacheService.saveToStorage env s = s :=
  persistRun_save_id env hstore _ _

theorem persistRun_rm_eq (env : CacheEnv)
    (hstore : ∀ l, env.storageOver l = false) (f : Nat) (s : CacheService)
    (k : String) (hf : 0 < f) :
    persistRun env f (.rm k) s = (removeCore s k).2 := by
  cases f with
  | zero => omega
  | succ f =>
    cases hmg : mapGet s.memoryCache k with
    | none => simp only [persistRun, hmg, removeCore]
    | some it =>
      simp only [persistRun, hmg, persistRun_save_id env hstore]

theorem remove_eq_removeCore (env : CacheEnv)
    (hstore : ∀ l, env.storageOver l = false) (s : CacheService) (k : String) :
    CacheService.remove env s k = removeCore s k := by
  unfold CacheService.remove
  rw [persistRun_rm_eq env hstore _ _ _ (persistFuel_pos s)]

theorem persistRun_sweepList_memoryCache (env : CacheEnv)
    (hstore : ∀ l, env.storageOver l = false) :
    ∀ (ks : List String) (f : Nat) (s : CacheService), ks.length < f →
      (persistRun env f (.sweepList ks) s).memoryCache =
        s.memoryCache.filter fun p => decide (¬ p.1 ∈ ks) := by
  intro ks
  induction ks with
  | nil =>
    intro f s hf
    cases f with
    | zero => omega
    | succ f =>
      show s.memoryCache = _
      symm
      apply List.filter_eq_self.2
      intro p _
      simp
  | cons k ks ih =>
    intro f s hf
    cases f with
    | zero => omega
    | succ f =>
      have hf1 : 0 < f := by simp at hf; omega
      simp only [persistRun]
      rw [persistRun_rm_eq env hstore f s k hf1]
      rw [ih f _ (by simp at hf ⊢; omega)]
      rw [removeCore_memoryCache]
      unfold mapDelete
      rw [List.filter_filter]
      apply List.filter_congr
      intro p _
      by_cases h1 : p.1 ∈ ks <;> by_cases h2 : p.1 = k <;> simp [h1, h2]

theorem cleanupOldItems_memoryCache (env : CacheEnv)
    (hstore : ∀ l, env.storageOver l = false) (s : CacheService) :
    (CacheService.cleanupOldItems env s).memoryCache =
      s.memoryCache.filter fun p =>
        decide (¬ p.1 ∈ sweepVictims s.memoryCache) := by
  unfold CacheService.cleanupOldItems
  obtain ⟨F, hF⟩ : ∃ F, persistFuel s = F + 1 :=
    ⟨persistFuel s - 1, by have := persistFuel_pos s; omega⟩
  rw [hF]
  simp only [persistRun]
  apply persistRun_sweepList_memoryCache env hstore
  have h1 : (sweepVictims s.memoryCache).length ≤ s.memoryCache.length := by
    unfold sweepVictims
    rw [List.length_map, List.length_take]
    have h2 : (sortEntriesByLastAccessed s.memoryCache).length =
        s.memoryCache.length :=
      (List.perm_insertionSort entryLe s.memoryCache).length_eq
    omega
  have h2 : 6 * (s.memoryCache.length + 2) ≤ persistFuel s := by
    unfold persistFuel
    exact Nat.le_mul_of_pos_right _ (by omega)
  omega

/-! ## The stats-consistency invariant (C10) -/

theorem updateMostAccessedItem_memoryCache (s : CacheService) (k : String)
    (c : Nat) : (updateMostAccessedItem s k c).memoryCache = s.memoryCache := by
  unfold updateMostAccessedItem
  split
  · rfl
  · split
    · rfl
    · split <;> rfl

theorem updateMostAccessedItem_stats (s : CacheService) (k : String) (c : Nat) :
    (updateMostAccessedItem s k c).stats.totalItems = s.stats.totalItems ∧
    (updateMostAccessedItem s k c).stats.totalSize = s.stats.totalSize ∧
    (updateMostAccessedItem s k c).stats.averageItemSize =
      s.stats.averageItemSize := by
  unfold updateMostAccessedItem
  split
  · exact ⟨rfl, rfl, rfl⟩
  · split
    · exact ⟨rfl, rfl, rfl⟩
    · split <;> exact ⟨rfl, rfl, rfl⟩

theorem clear_inv (s : CacheService) : CacheInv (CacheService.clear s) := by
  refine ⟨?_, ?_, ?_, ?_⟩ <;>
    simp [CacheService.clear, initialStats, KeysNodup, StatsOk, sumSizes]

theorem get_inv (env : CacheEnv) (s : CacheService) (key : String) (now : Nat)
    (h : CacheInv s) : CacheInv (CacheService.get env s key now).2 := by
  obtain ⟨hnd, hti, hts, havg⟩ := h
  unfold CacheService.get
  cases hmg : mapGet s.memoryCache key with
  | none =>
    simp only [hmg]
    exact ⟨hnd, hti, hts, havg⟩
  | some item =>
    simp only [hmg]
    by_cases hexp : CacheService.isExpired item now
    · simp only [if_pos hexp]
      have h1 : CacheInv (CacheService.remove env s key).2 := by
        unfold CacheService.remove
        exact persistRun_inv env _ _ _ ⟨hnd, hti, hts, havg⟩
      obtain ⟨hnd1, hti1, hts1, havg1⟩ := h1
      exact ⟨hnd1, hti1, hts1, havg1⟩
    · simp only [if_neg hexp]
      set item1 : CacheItem := { item with lastAccessedAt := now, accessCount := item.accessCount + 1 } with hitem1
      set s1 : CacheService := { s with memoryCache := mapSet s.memoryCache key item1 } with hs1
      have hums := updateMostAccessedItem_stats s1 key (item.accessCount + 1)
      have humc : (updateMostAccessedItem s1 key (item.accessCount + 1)).memoryCache = mapSet s.memoryCache key item1 :=
        updateMostAccessedItem_memoryCache s1 key (item.accessCount + 1)
      refine ⟨?_, ?_, ?_, ?_⟩
      · show ((updateMostAccessedItem _ _ _).memoryCache.map Prod.fst).Nodup
        rw [humc]
        exact keys_mapSet_nodup _ hnd
      · show (updateMostAccessedItem _ _ _).stats.totalItems =
          ((updateMostAccessedItem _ _ _).memoryCache.length : Int)
        rw [humc, hums.1, length_mapSet_present _ hmg, hti]
      · show (updateMostAccessedItem _ _ _).stats.totalSize =
          sumSizes (updateMostAccessedItem _ _ _).memoryCache
        rw [humc, hums.2.1, sumSizes_mapSet_present _ hnd hmg, hts]
        have h1 : item1.size = item.size := rfl
        rw [h1]
        omega
      · show (updateMostAccessedItem s1 key (item.accessCount + 1)).stats.averageItemSize =
          if 0 < (updateMostAccessedItem s1 key (item.accessCount + 1)).stats.totalItems then
            ((updateMostAccessedItem s1 key (item.accessCount + 1)).stats.totalSize : ℚ) /
              ((updateMostAccessedItem s1 key (item.accessCount + 1)).stats.totalItems : ℚ)
          else 0
        rw [hums.1, hums.2.1, hums.2.2]
        exact havg

theorem setInsert_inv (env : CacheEnv) (s : CacheService) (key : String)
    (data expiresAt now size : Nat) (h : CacheInv s) :
    CacheInv (setInsert env s key data expiresAt now size).2 := by
  obtain ⟨hnd, hti, hts, havg⟩ := h
  unfold setInsert
  have hsave : ∀ s1 : CacheService, CacheInv s1 →
      CacheInv (CacheService.saveToStorage env s1) := by
    intro s1 h1
    unfold CacheService.saveToStorage
    exact persistRun_inv env _ _ _ h1
  cases hmg : mapGet s.memoryCache key with
  | some ex =>
    simp only [hmg]
    apply hsave
    have hlen := length_pos_of_mapGet hmg
    refine ⟨keys_mapSet_nodup _ hnd, ?_, ?_, ?_⟩
    · show s.stats.totalItems = ((mapSet s.memoryCache key _).length : Int)
      rw [length_mapSet_present _ hmg, hti]
    · show s.stats.totalSize - (ex.size : Int) + (size : Int) =
        sumSizes (mapSet s.memoryCache key _)
      rw [sumSizes_mapSet_present _ hnd hmg, hts]
    · have hpos : 0 < s.stats.totalItems := by rw [hti]; exact_mod_cast hlen
      split
      · rfl
      · next hneg => exact absurd hpos hneg
  | none =>
    simp only [hmg]
    apply hsave
    refine ⟨keys_mapSet_nodup _ hnd, ?_, ?_, ?_⟩
    · show s.stats.totalItems + 1 = ((mapSet s.memoryCache key _).length : Int)
      rw [length_mapSet_absent _ hmg, hti]
      push_cast
      ring
    · show s.stats.totalSize + (size : Int) =
        sumSizes (mapSet s.memoryCache key _)
      rw [sumSizes_mapSet_absent _ hmg, hts]
    · have hpos : 0 < s.stats.totalItems + 1 := by
        rw [hti]
        have h0 : (0 : Int) ≤ (s.memoryCache.length : Int) := by positivity
        omega
      split
      · rfl
      · next hneg => exact absurd hpos hneg

theorem cleanupOldItems_inv (env : CacheEnv) (s : CacheService)
    (h : CacheInv s) : CacheInv (CacheService.cleanupOldItems env s) := by
  unfold CacheService.cleanupOldItems
  exact persistRun_inv env _ _ _ h

theorem set_inv (env : CacheEnv) (s : CacheService) (key : String) (data : Nat)
    (ttl : Option Nat) (now : Nat) (h : CacheInv s) :
    CacheInv (CacheService.set env s key data ttl now).2 := by
  unfold CacheService.set
  by_cases h1 : CacheService.wouldExceedStorageLimit s (env.calcSize data)
  · simp only [h1, if_true]
    by_cases h2 : CacheService.wouldExceedStorageLimit
        (CacheService.cleanupOldItems env s) (env.calcSize data)
    · simp only [h2, if_true]
      exact cleanupOldItems_inv env s h
    · simp only [h2, if_false]
      exact setInsert_inv env _ _ _ _ _ _ (cleanupOldItems_inv env s h)
  · simp only [h1, if_false]
    exact setInsert_inv env _ _ _ _ _ _ h

theorem remove_inv (env : CacheEnv) (s : CacheService) (key : String)
    (h : CacheInv s) : CacheInv (CacheService.remove env s key).2 := by
  unfold CacheService.remove
  exact persistRun_inv env _ _ _ h

theorem cleanupLoop_inv (env : CacheEnv) (now : Nat) :
    ∀ (lst : List (String × CacheItem)) (s : CacheService), CacheInv s →
      CacheInv (cleanupLoop env now lst s).2 := by
  intro lst
  induction lst with
  | nil => intro s h; exact h
  | cons p rest ih =>
    intro s h
    obtain ⟨k, item⟩ := p
    by_cases hexp : CacheService.isExpired item now
    · simp only [cleanupLoop, if_pos hexp]
      exact ih _ (remove_inv env s k h)
    · simp only [cleanupLoop, if_neg hexp]
      exact ih _ h

theorem cleanup_inv (env : CacheEnv) (s : CacheService) (now : Nat)
    (h : CacheInv s) : CacheInv (CacheService.cleanup env s now).2 := by
  unfold CacheService.cleanup
  obtain ⟨a, b, c, d⟩ := cleanupLoop_inv env now s.memoryCache s h
  exact ⟨a, b, c, d⟩

/-- C10: the stats invariant — `totalItems` is the number of stored
entries, `totalSize` the sum of their `size` fields, and
`averageItemSize` is `totalSize / totalItems` when `totalItems > 0` and
`0` otherwise (with unique keys) — is preserved by every public cache
operation: `get`, `set`, `remove`, `clear` and `cleanup`. -/
theorem c10_stats_consistency (env : CacheEnv) (s : CacheService)
    (key : String) (data : Nat) (ttl : Option Nat) (now : Nat)
    (h : CacheInv s) :
    CacheInv (CacheService.get env s key now).2 ∧
    CacheInv (CacheService.set env s key data ttl now).2 ∧
    CacheInv (CacheService.remove env s key).2 ∧
    CacheInv (CacheService.clear s) ∧
    CacheInv (CacheService.cleanup env s now).2 :=
  ⟨get_inv env s key now h, set_inv env s key data ttl now h,
    remove_inv env s key h, clear_inv s, cleanup_inv env s now h⟩

/-- C10 witness: the invariant machinery applies to a concrete
two-entry cache. -/
theorem c10_stats_consistency_witness :
    CacheInv (CacheService.get plainCacheEnv twoTieCache "k1" 0).2 :=
  (c10_stats_consistency plainCacheEnv twoTieCache "k1" 0 none 0
    (by unfold CacheInv KeysNodup StatsOk
        refine ⟨by decide, by decide, by decide, ?_⟩
        norm_num [twoTieCache, initialStats])).1

/-! ## Cache TTL semantics (C2) and LRU eviction (C8) -/

/-- C2 (amended): provided the serialized snapshot never exceeds the
5 MB storage cap (so `saveToStorage` runs no eviction pass), a
successful `set(k, v)` installs an entry expiring at
`now + (ttl || defaultTTL)`; while the entry is held, `get(k)` at any
time up to `expiresAt` returns `v` and keeps the entry, and `get(k)` at
any time strictly after `expiresAt` returns `null`, physically removes
the entry, and counts one miss and one expired item.  (Without the
storage-cap proviso the claim fails: see the counterexample.) -/
theorem c2_cache_ttl_amended (env : CacheEnv) (s : CacheService) (k : String)
    (v : Nat) (ttl : Option Nat) (now : Nat)
    (hstore : ∀ l, env.storageOver l = false)
    (hset : (CacheService.set env s k v ttl now).1 = true) :
    holdsEntry (CacheService.set env s k v ttl now).2 k v
      (now + effectiveTTL s.config ttl) ∧
    ∀ (s2 : CacheService) (it : CacheItem) (t : Nat),
      mapGet s2.memoryCache k = some it → it.data = v →
      ((t ≤ it.expiresAt →
        (CacheService.get env s2 k t).1 = some v ∧
        holdsEntry (CacheService.get env s2 k t).2 k v it.expiresAt) ∧
       (it.expiresAt < t →
        (CacheService.get env s2 k t).1 = none ∧
        mapGet (CacheService.get env s2 k t).2.memoryCache k = none ∧
        (CacheService.get env s2 k t).2.stats.missCount =
          s2.stats.missCount + 1 ∧
        (CacheService.get env s2 k t).2.stats.expiredItems =
          s2.stats.expiredItems + 1)) := by
  constructor
  · have hins : ∀ s1 : CacheService,
        holdsEntry (setInsert env s1 k v (now + effectiveTTL s.config ttl) now
          (env.calcSize v)).2 k v (now + effectiveTTL s.config ttl) := by
      intro s1
      unfold setInsert
      cases hmg : mapGet s1.memoryCache k <;>
        · simp only [hmg]
          rw [saveToStorage_id env hstore]
          exact ⟨_, mapGet_mapSet_self _ _ _, rfl, rfl⟩
    unfold CacheService.set at hset ⊢
    by_cases h1 : CacheService.wouldExceedStorageLimit s (env.calcSize v)
    · simp only [h1, if_true] at hset ⊢
      by_cases h2 : CacheService.wouldExceedStorageLimit
          (CacheService.cleanupOldItems env s) (env.calcSize v)
      · simp only [h2, if_true] at hset
        cases hset
      · simp only [h2, if_false]
        exact hins _
    · simp only [h1, if_false]
      exact hins s
  · intro s2 it t hmg hdata
    constructor
    · intro hle
      have hexp : ¬ CacheService.isExpired it t = true := by
        simp only [CacheService.isExpired, decide_eq_true_eq]
        omega
      unfold CacheService.get
      simp only [hmg, if_neg hexp]
      refine ⟨by rw [hdata], ?_⟩
      refine ⟨{ it with lastAccessedAt := t, accessCount := it.accessCount + 1 }, ?_, hdata, rfl⟩
      show mapGet (updateMostAccessedItem _ _ _).memoryCache k = some _
      rw [updateMostAccessedItem_memoryCache]
      exact mapGet_mapSet_self _ _ _
    · intro hgt
      have hexp : CacheService.isExpired it t = true := by
        simp only [CacheService.isExpired, decide_eq_true_eq]
        omega
      unfold CacheService.get
      simp only [hmg, if_pos hexp]
      have hrm := remove_eq_removeCore env hstore s2 k
      refine ⟨by trivial, ?_, ?_, ?_⟩
      · show mapGet (CacheService.remove env s2 k).2.memoryCache k = none
        rw [hrm, removeCore_memoryCache]
        exact mapGet_mapDelete_self _ _
      · show (CacheService.remove env s2 k).2.stats.missCount + 1 =
          s2.stats.missCount + 1
        rw [hrm]
        simp [removeCore, hmg]
      · show (CacheService.remove env s2 k).2.stats.expiredItems + 1 =
          s2.stats.expiredItems + 1
        rw [hrm]
        simp [removeCore, hmg]

/-- C2 witness: the amended theorem applies to a concrete small set
followed by a get inside the TTL. -/
theorem c2_cache_ttl_amended_witness :
    (CacheService.get plainCacheEnv
      (CacheService.set plainCacheEnv initialCache "k" 7 none 0).2 "k" 5).1 =
      some 7 := by
  obtain ⟨it, hit, hdata, hexp⟩ :=
    (c2_cache_ttl_amended plainCacheEnv initialCache "k" 7 none 0
      (fun l => rfl) (by decide)).1
  have h2 := ((c2_cache_ttl_amended plainCacheEnv initialCache "k" 7 none 0
      (fun l => rfl) (by decide)).2 _ it 5 hit hdata).1 (by rw [hexp]; decide)
  exact h2.1

/-- C8 (amended): absent storage-cap snapshot pressure, the eviction
sweep removes exactly `Math.ceil(0.2 * n)` entries — those earliest in
the `lastAccessedAt`-ascending order — so every evicted entry was
accessed no more recently (`≤`, ties possible, not strictly earlier)
than every surviving entry; and when the write would still exceed
`maxSize` after the sweep, `set` returns `false` without inserting. -/
theorem c8_lru_eviction_amended (env : CacheEnv) (s : CacheService)
    (hstore : ∀ l, env.storageOver l = false)
    (hnd : (s.memoryCache.map Prod.fst).Nodup) :
    (CacheService.cleanupOldItems env s).memoryCache.length =
      s.memoryCache.length - ceilFifth s.memoryCache.length ∧
    (∀ e ∈ (sortEntriesByLastAccessed s.memoryCache).take
        (ceilFifth s.memoryCache.length),
      ∀ q ∈ (CacheService.cleanupOldItems env s).memoryCache,
        e.2.lastAccessedAt ≤ q.2.lastAccessedAt) ∧
    (∀ (key : String) (data : Nat) (ttl : Option Nat) (now : Nat),
      CacheService.wouldExceedStorageLimit s (env.calcSize data) = true →
      CacheService.wouldExceedStorageLimit (CacheService.cleanupOldItems env s)
        (env.calcSize data) = true →
      CacheService.set env s key data ttl now =
        (false, CacheService.cleanupOldItems env s)) := by
  have hmc := cleanupOldItems_memoryCache env hstore s
  have hperm : List.Perm (sortEntriesByLastAccessed s.memoryCache)
      s.memoryCache := List.perm_insertionSort entryLe s.memoryCache
  have hlen_sorted : (sortEntriesByLastAccessed s.memoryCache).length =
      s.memoryCache.length := hperm.length_eq
  have hc_le : ceilFifth s.memoryCache.length ≤ s.memoryCache.length := by
    unfold ceilFifth
    omega
  have hndw : ((sortEntriesByLastAccessed s.memoryCache).map Prod.fst).Nodup :=
    (hperm.map Prod.fst).nodup_iff.2 hnd
  have hsplit := List.take_append_drop (ceilFifth s.memoryCache.length)
    (sortEntriesByLastAccessed s.memoryCache)
  have htake_len : ((sortEntriesByLastAccessed s.memoryCache).take
      (ceilFifth s.memoryCache.length)).length =
      ceilFifth s.memoryCache.length := by
    rw [List.length_take]
    omega
  have hdisj : List.Disjoint
      (((sortEntriesByLastAccessed s.memoryCache).take
        (ceilFifth s.memoryCache.length)).map Prod.fst)
      (((sortEntriesByLastAccessed s.memoryCache).drop
        (ceilFifth s.memoryCache.length)).map Prod.fst) := by
    have h1 := hndw
    rw [← hsplit, List.map_append, List.nodup_append] at h1
    exact h1.2.2
  have hmem_take_ks : ∀ p_ ∈ (sortEntriesByLastAccessed s.memoryCache).take
      (ceilFifth s.memoryCache.length), p_.1 ∈ sweepVictims s.memoryCache := by
    intro p_ hp
    unfold sweepVictims
    exact List.mem_map.2 ⟨p_, hp, rfl⟩
  refine ⟨?_, ?_, ?_⟩
  · rw [hmc]
    have hca : (s.memoryCache.filter fun p =>
        decide (p.1 ∈ sweepVictims s.memoryCache)).length =
        ceilFifth s.memoryCache.length := by
      rw [← List.countP_eq_length_filter]
      rw [← hperm.countP_eq]
      rw [← hsplit, List.countP_append]
      have h1 : (((sortEntriesByLastAccessed s.memoryCache).take
          (ceilFifth s.memoryCache.length)).countP fun p =>
            decide (p.1 ∈ sweepVictims s.memoryCache)) =
          ceilFifth s.memoryCache.length := by
        have hall : ∀ a ∈ (sortEntriesByLastAccessed s.memoryCache).take
            (ceilFifth s.memoryCache.length),
            (fun p => decide (p.1 ∈ sweepVictims s.memoryCache)) a = true := by
          intro a ha
          simpa using hmem_take_ks a ha
        rw [List.countP_eq_length.2 hall]
        exact htake_len
      have h2 : (((sortEntriesByLastAccessed s.memoryCache).drop
          (ceilFifth s.memoryCache.length)).countP fun p =>
            decide (p.1 ∈ sweepVictims s.memoryCache)) = 0 := by
        rw [List.countP_eq_zero]
        intro q hq
        simp only [decide_eq_true_eq]
        intro hqks
        unfold sweepVictims at hqks
        exact hdisj hqks (List.mem_map.2 ⟨q, hq, rfl⟩)
      rw [h1, h2]
      omega
    have hsum := List.length_eq_length_filter_add
      (l := s.memoryCache)
      (fun p => decide (p.1 ∈ sweepVictims s.memoryCache))
    have hcongr : (s.memoryCache.filter fun p =>
        decide (¬ p.1 ∈ sweepVictims s.memoryCache)) =
        s.memoryCache.filter fun p =>
          !(decide (p.1 ∈ sweepVictims s.memoryCache)) := by
      apply List.filter_congr
      intro p _
      by_cases h : p.1 ∈ sweepVictims s.memoryCache <;> simp [h]
    rw [hcongr]
    omega
  · intro e he q hq
    rw [hmc] at hq
    have hq2 := List.mem_filter.1 hq
    have hqnot : ¬ q.1 ∈ sweepVictims s.memoryCache := by
      simpa using hq2.2
    have hqs : q ∈ sortEntriesByLastAccessed s.memoryCache :=
      hperm.mem_iff.2 hq2.1
    rw [← hsplit] at hqs
    rcases List.mem_append.1 hqs with hqt | hqd
    · exact absurd (hmem_take_ks q hqt) hqnot
    · exact (List.sorted_insertionSort entryLe
        s.memoryCache).rel_of_mem_take_of_mem_drop he hqd
  · intro key data ttl now h1 h2
    unfold CacheService.set
    simp [h1, h2]

/-- C8 witness: the amended theorem applies to the concrete two-entry
cache. -/
theorem c8_lru_eviction_amended_witness :
    (CacheService.cleanupOldItems plainCacheEnv twoTieCache).memoryCache.length =
      twoTieCache.memoryCache.length -
        ceilFifth twoTieCache.memoryCache.length :=
  (c8_lru_eviction_amended plainCacheEnv twoTieCache (fun l => rfl)
    (by decide)).1

end Chat11
